import Mathlib

/-!
Shallow embedding of the AMR text-repair and validation pipeline of the
GrAPES repository (src/scripts/process_amr.py, src/scripts/amr_validation.py,
src/amrbank_analysis/reentrancies.py), together with theorems settling the
specification claims about it.  Texts are modelled as `List Char`; Python
string operations are translated operation by operation.
-/

/-- Python whitespace characters, as used by `str.strip`, `str.split` and the
`\s` regex class (ASCII fragment). -/
def isPyWs (c : Char) : Bool :=
  c = ' ' || c = '\t' || c = '\n' || c = '\r' || c = '\x0b' || c = '\x0c'

/-- Python `str.strip()`: drop leading and trailing whitespace. -/
def pyStrip (l : List Char) : List Char :=
  ((l.dropWhile isPyWs).reverse.dropWhile isPyWs).reverse

/-- Python `s.split('\n')`: every `'\n'` is a separator, so the result is one
segment more than the number of newlines (`"".split('\n') == [""]`). -/
def splitLines (cs : List Char) : List (List Char) :=
  cs.foldr
    (fun c acc =>
      if c = '\n' then [] :: acc
      else
        match acc with
        | l :: ls => (c :: l) :: ls
        | [] => [[c]])
    [[]]

/-- Python `'\n'.join(lines)`. -/
def joinNl : List (List Char) → List Char
  | [] => []
  | [l] => l
  | l :: l' :: ls => l ++ '\n' :: joinNl (l' :: ls)

/-- Occurrence count of a character, Python `s.count(c)` for a single
character. -/
def cnt (c : Char) : List Char → Nat
  | [] => 0
  | d :: t => (if d = c then 1 else 0) + cnt c t

/-- Decidable substring test (`pat in s` for Python strings). -/
def hasSub (pat : List Char) : List Char → Bool
  | [] => pat.isEmpty
  | c :: rest => pat.isPrefixOf (c :: rest) || hasSub pat rest

/-! ## Lexical Normalizer (process_amr.py, clean_amr lines 31-38) -/

/-- The multi-word node-name fix of `clean_amr`: for a line starting with `(`
and containing `/`, split at the first `/` (`line.split("/", 1)`), strip the
label part, replace every `' '` in it by `'_'`, and reassemble as
`f"{parts[0]}/{node_name}"`. -/
def fixMultiWord (line : List Char) : List Char :=
  if line.head? = some '(' ∧ '/' ∈ line then
    let p0 := line.takeWhile (fun c => c ≠ '/')
    let p1 := (line.drop p0.length).tail
    p0 ++ '/' :: ((pyStrip p1).map (fun c => if c = ' ' then '_' else c))
  else line

/-- Characters of the regex class `[\w-]` (ASCII fragment). -/
def isWordDash (c : Char) : Bool :=
  c.isAlpha || c.isDigit || c = '_' || c = '-'

/-- One leftmost-match scan step of Python
`re.sub(r"(:[\w-]+)(?=[^\s/])", r"\1 ", line)`.
At a `':'` the engine greedily matches `[\w-]+` and then needs the lookahead
`[^\s/]`: if the character after the maximal run is a non-space non-`'/'`
character the whole run matches and a space is inserted after it; otherwise
the engine backtracks one character (possible only when the run has at least
two characters), so the space lands before the run's last character.  The
scan resumes at the lookahead position.  `fuel` bounds the recursion; it is
called with the input length, which always suffices since every step consumes
at least one character. -/
def roleSubGo : Nat → List Char → List Char
  | 0, s => s
  | _ + 1, [] => []
  | fuel + 1, c :: cs =>
    if c = ':' then
      let run := cs.takeWhile isWordDash
      let tl := cs.drop run.length
      if run.isEmpty then c :: roleSubGo fuel cs
      else
        let nextOk := match tl.head? with
          | some d => !(isPyWs d || d = '/')
          | none => false
        if nextOk then c :: run ++ ' ' :: roleSubGo fuel tl
        else
          match run.getLast? with
          | some lc =>
            if 2 ≤ run.length then
              c :: run.dropLast ++ ' ' :: roleSubGo fuel (lc :: tl)
            else c :: roleSubGo fuel cs
          | none => c :: roleSubGo fuel cs
    else c :: roleSubGo fuel cs

/-- Python `re.sub(r"(:[\w-]+)(?=[^\s/])", r"\1 ", line)`. -/
def roleSub (s : List Char) : List Char := roleSubGo s.length s

/-- The per-line phase of `clean_amr`: multi-word node-name fix followed by
the role-spacing regex. -/
def normalizeLine (line : List Char) : List Char := roleSub (fixMultiWord line)

/-! ## Bracket Balancer (process_amr.py, clean_amr lines 45-63) -/

/-- Characters of the regex class `[a-z0-9]`. -/
def isLowDig (c : Char) : Bool := c.isLower || c.isDigit

/-- Index of the last `'\n'` in a list, if any. -/
def lastNlIdx : List Char → Option Nat
  | [] => none
  | c :: cs =>
    match lastNlIdx cs with
    | some k => some (k + 1)
    | none => if c = '\n' then some 0 else none

/-- Attempted match of `re.sub(r"(\([a-z0-9]+\s+/[^)]+)(\n|$)", r"\1)\2", _)`
at an opening parenthesis; `cs` is the text after the `'('`.  The engine
requires a nonempty `[a-z0-9]` run, a nonempty whitespace run, a `'/'`, and
then a greedy `[^)]+` followed by `'\n'` or the end of the text: since `[^)]`
also matches `'\n'`, the run extends to the next `')'` (or the end) and
backtracks to the last `'\n'` before it.  Returns the replacement text for
the matched part (group 1, the inserted `')'`, and group 2) together with the
unconsumed rest. -/
def tryNodeMatch (cs : List Char) : Option (List Char × List Char) :=
  let run1 := cs.takeWhile isLowDig
  let r1 := cs.drop run1.length
  if run1.isEmpty then none
  else
    let run2 := r1.takeWhile isPyWs
    let r2 := r1.drop run2.length
    if run2.isEmpty then none
    else
      match r2 with
      | d :: after =>
        if d = '/' then
          let m := (after.takeWhile (fun c => c ≠ ')')).length
          if m = after.length then
            if m = 0 then none
            else some (run1 ++ run2 ++ '/' :: after ++ [')'], [])
          else
            match lastNlIdx (after.take m) with
            | some k =>
              if 1 ≤ k then
                some (run1 ++ run2 ++ '/' :: after.take k ++ [')', '\n'],
                  after.drop (k + 1))
              else none
            | none => none
        else none
      | [] => none

/-- Leftmost scan of the targeted closer-insertion `re.sub`; `fuel` bounds the
recursion and the input length always suffices since every step consumes at
least one character. -/
def closerInsGo : Nat → List Char → List Char
  | 0, s => s
  | _ + 1, [] => []
  | fuel + 1, c :: cs =>
    if c = '(' then
      match tryNodeMatch cs with
      | some (out, rest) => c :: out ++ closerInsGo fuel rest
      | none => c :: closerInsGo fuel cs
    else c :: closerInsGo fuel cs

/-- Targeted closer insertion:
`re.sub(r"(\([a-z0-9]+\s+/[^)]+)(\n|$)", r"\1)\2", cleaned)`. -/
def closerIns (s : List Char) : List Char := closerInsGo s.length s

/-- The stack scrub pass of `clean_amr`: `'('` is pushed and emitted, `')'` is
emitted only when the stack is nonempty (otherwise dropped), and at the end
one `')'` per remaining stack entry is appended.  Only the stack's length is
ever consulted, so it is carried as a `Nat`. -/
def scrubAux : List Char → Nat → List Char
  | [], st => List.replicate st ')'
  | c :: cs, st =>
    if c = '(' then c :: scrubAux cs (st + 1)
    else if c = ')' then
      match st with
      | 0 => scrubAux cs 0
      | st' + 1 => c :: scrubAux cs st'
    else c :: scrubAux cs st

/-- The stack scrub pass applied with an initially empty stack. -/
def scrub (s : List Char) : List Char := scrubAux s 0

/-- The Bracket Balancer as implemented at the end of `clean_amr`: targeted
closer insertion followed by the stack scrub pass. -/
def bracketBalance (s : List Char) : List Char := scrub (closerIns s)

/-! ## Balance lemmas for the scrub pass -/

theorem cnt_take_le_length (c : Char) (l : List Char) (n : Nat) :
    cnt c (l.take n) ≤ cnt c l := by
  induction l generalizing n with
  | nil => simp [List.take_nil, cnt]
  | cons d t ih =>
    cases n with
    | zero => simp [cnt]
    | succ m =>
      simp only [List.take_succ_cons, cnt]
      exact Nat.add_le_add_left (ih m) _

theorem scrubAux_cnt (cs : List Char) (st : Nat) :
    cnt ')' (scrubAux cs st) = cnt '(' (scrubAux cs st) + st := by
  induction cs generalizing st with
  | nil =>
    simp only [scrubAux]
    induction st with
    | zero => simp [cnt]
    | succ n ih => simp [List.replicate_succ, cnt, ih]; omega
  | cons c t ih =>
    by_cases hpo : c = '('
    · subst hpo
      simp only [scrubAux, if_pos rfl, cnt]
      rw [ih (st + 1)]
      simp
      omega
    · by_cases hpc : c = ')'
      · subst hpc
        simp only [scrubAux, if_neg (show ¬ ((')' : Char) = '(') by decide), if_pos rfl]
        cases st with
        | zero => simpa using ih 0
        | succ st' =>
          simp only [cnt, if_pos rfl]
          rw [ih st']
          have hne : (')' : Char) ≠ '(' := by decide
          simp [hne]
          omega
      · simp only [scrubAux, if_neg hpo, if_neg hpc, cnt]
        rw [ih st]
        simp [hpo, hpc]

theorem scrubAux_take (cs : List Char) (st : Nat) (n : Nat) :
    cnt ')' ((scrubAux cs st).take n) ≤ cnt '(' ((scrubAux cs st).take n) + st := by
  induction cs generalizing st n with
  | nil =>
    simp only [scrubAux]
    have h1 : (List.replicate st ')').take n = List.replicate (min n st) ')' :=
      List.take_replicate ')' n st
    rw [h1]
    have h2 : ∀ m, cnt ')' (List.replicate m ')') = m := by
      intro m
      induction m with
      | zero => simp [cnt]
      | succ k ih => simp [List.replicate_succ, cnt, ih]; omega
    have h3 : ∀ m, cnt '(' (List.replicate m ')') = 0 := by
      intro m
      induction m with
      | zero => simp [cnt]
      | succ k ih => simp [List.replicate_succ, cnt, ih]
    rw [h2, h3]
    omega
  | cons c t ih =>
    by_cases hpo : c = '('
    · subst hpo
      simp only [scrubAux, if_pos rfl]
      cases n with
      | zero => simp [cnt]
      | succ m =>
        simp only [List.take_succ_cons, cnt]
        have := ih (st + 1) m
        simp
        omega
    · by_cases hpc : c = ')'
      · subst hpc
        simp only [scrubAux, if_neg (show ¬ ((')' : Char) = '(') by decide), if_pos rfl]
        cases st with
        | zero => simpa using ih 0 n
        | succ st' =>
          cases n with
          | zero => simp [cnt]
          | succ m =>
            simp only [List.take_succ_cons, cnt]
            have := ih st' m
            have hne : (')' : Char) ≠ '(' := by decide
            simp [hne]
            omega
      · simp only [scrubAux, if_neg hpo, if_neg hpc]
        cases n with
        | zero => simp [cnt]
        | succ m =>
          simp only [List.take_succ_cons, cnt]
          have := ih st m
          simp [hpo, hpc]
          omega

/-! ## clean_amr (process_amr.py lines 16-63) -/

/-- `clean_amr`: strip lines dropping blank ones, drop a leading `# ::snt`
line, normalize each line, join with newlines, then run the Bracket
Balancer (targeted closer insertion followed by the stack scrub pass). -/
def clean_amr (s : List Char) : List Char :=
  let lines0 := ((splitLines s).map pyStrip).filter (fun l => !l.isEmpty)
  let lines :=
    match lines0 with
    | l :: ls => if ("# ::snt".toList).isPrefixOf l then ls else lines0
    | [] => lines0
  bracketBalance (joinNl (lines.map normalizeLine))

/-! ## Duplicate-Triple Eliminator (process_amr.py lines 65-88) -/

/-- A line that passes through `remove_duplicate_triples` unconditionally:
blank after stripping, or a comment (stripped line starting with `#`). -/
def isCB (l : List Char) : Bool :=
  (pyStrip l).isEmpty || ((pyStrip l).head? == some '#')

/-- The loop of `remove_duplicate_triples`: `seen` is the set of stripped
non-comment, non-blank lines already kept; a stripped line found in `seen`
is dropped and counted, otherwise it is added to `seen` and kept. -/
def rmDupGo (seen : List (List Char)) : List (List Char) → List (List Char) × Nat
  | [] => ([], 0)
  | line :: rest =>
    if isCB line then
      let r := rmDupGo seen rest
      (line :: r.1, r.2)
    else if pyStrip line ∈ seen then
      let r := rmDupGo seen rest
      (r.1, r.2 + 1)
    else
      let r := rmDupGo (pyStrip line :: seen) rest
      (line :: r.1, r.2)

/-- `remove_duplicate_triples`: filter the lines through `rmDupGo` with an
initially empty seen set and rejoin with newlines, returning the text and
the number of removed lines. -/
def remove_duplicate_triples (s : List Char) : List Char × Nat :=
  let r := rmDupGo [] (splitLines s)
  (joinNl r.1, r.2)

/-! ## validate_amr (process_amr.py lines 90-106) -/

/-- Outcome kinds of the external `penman.decode` call as distinguished by
`validate_amr`'s handlers: a `DecodeError`, or any other exception. -/
inductive DecErr
  | decodeError
  | otherError
deriving DecidableEq

/-- The fixed sentinel graph text returned for invalid input. -/
def sentinel : List Char := "(g / gggggg)".toList

/-- The count-based repair of `validate_amr`:
`amr_str + ")" * (amr_str.count("(") - amr_str.count(")"))`; Python's `*`
yields the empty string for a negative count, matching `Nat` subtraction. -/
def countFix (s : List Char) : List Char :=
  s ++ List.replicate (cnt '(' s - cnt ')' s) ')'

/-- `validate_amr`, with the external decode capability as a parameter:
decode the text; on a `DecodeError` retry on the count-repaired text (any
failure there falls back to the sentinel); on any other exception fall back
to the sentinel. -/
def validate_amr (decode : List Char → Except DecErr Unit) (s : List Char) :
    Bool × List Char :=
  match decode s with
  | Except.ok _ => (true, s)
  | Except.error DecErr.decodeError =>
    match decode (countFix s) with
    | Except.ok _ => (true, countFix s)
    | Except.error _ => (false, sentinel)
  | Except.error DecErr.otherError => (false, sentinel)

/-! ## process_csv per-item processing (process_amr.py lines 138-155) -/

/-- Python values as needed to model `validate_amr`'s returned tuple. -/
inductive PyVal
  | bool (b : Bool)
  | str (s : List Char)

/-- Python truthiness of a tuple: nonempty tuples are truthy. -/
def pyTupleTruthy (t : List PyVal) : Bool := !t.isEmpty

/-- The tuple object returned by `validate_amr`, as bound to `is_valid` in
`process_csv` (the tuple itself, not its first component). -/
def validateTuple (decode : List Char → Except DecErr Unit) (s : List Char) :
    List PyVal :=
  [PyVal.bool (validate_amr decode s).1, PyVal.str (validate_amr decode s).2]

/-- The per-column loop of `process_csv`: clean, deduplicate, bind the tuple
returned by `validate_amr` to `is_valid`, and branch on its truthiness,
writing either the deduplicated text or the `# INVALID AMR`-marked text.
Returns (valid_count, invalid_count, written texts). -/
def processCol (decode : List Char → Except DecErr Unit) :
    List (List Char) → Nat × Nat × List (List Char)
  | [] => (0, 0, [])
  | amr :: rest =>
    let cleaned := (remove_duplicate_triples (clean_amr amr)).1
    let tup := validateTuple decode cleaned
    let r := processCol decode rest
    if pyTupleTruthy tup then (r.1 + 1, r.2.1, cleaned :: r.2.2)
    else (r.1, r.2.1 + 1, ("# INVALID AMR\n".toList ++ cleaned) :: r.2.2)

/-! ## analyze_amr_file (amr_validation.py lines 12-49) -/

/-- A decoded `(source, relation, target)` triple. -/
abbrev AmrTriple := List Char × List Char × List Char

/-- The `defaultdict(int)` keyed by triples, as an association list. -/
abbrev DupMap := List (AmrTriple × Nat)

/-- `duplicates[key] += 1` on a `defaultdict(int)`. -/
def bump (m : DupMap) (k : AmrTriple) : DupMap :=
  match m with
  | [] => [(k, 1)]
  | p :: r => if p.1 = k then (p.1, p.2 + 1) :: r else p :: bump r k

/-- The inner loop of `analyze_amr_file` over one graph's triples: a key
already in the per-graph `seen` set bumps the global duplicates map. -/
def updGo (m : DupMap) (seen : List AmrTriple) : List AmrTriple → DupMap
  | [] => m
  | t :: ts =>
    if t ∈ seen then updGo (bump m t) seen ts
    else updGo m (t :: seen) ts

/-- Python `content.split('\n\n')`: split on non-overlapping occurrences of
two consecutive newlines, left to right. -/
def splitOnNlNl : List Char → List (List Char)
  | [] => [[]]
  | '\n' :: '\n' :: r => [] :: splitOnNlNl r
  | c :: r =>
    match splitOnNlNl r with
    | l :: ls => (c :: l) :: ls
    | [] => [[c]]

/-- The enumerate loop of `analyze_amr_file`, with the external decode as a
parameter returning the graph's triples: blank (after strip) entries are
skipped; a successful decode counts as valid and updates the duplicates
map; any exception appends the 1-based index to the error list and
processing continues.  Returns (valid, duplicates map, error_lines). -/
def analyzeGo (decode : List Char → Except Unit (List AmrTriple))
    (dups : DupMap) (idx : Nat) : List (List Char) → Nat × DupMap × List Nat
  | [] => (0, dups, [])
  | s :: rest =>
    if (pyStrip s).isEmpty then analyzeGo decode dups (idx + 1) rest
    else
      match decode (pyStrip s) with
      | Except.ok triples =>
        let r := analyzeGo decode (updGo dups [] triples) (idx + 1) rest
        (r.1 + 1, r.2.1, r.2.2)
      | Except.error _ =>
        let r := analyzeGo decode dups (idx + 1) rest
        (r.1, r.2.1, (idx + 1) :: r.2.2)

/-- `analyze_amr_file` on already-read file content: split into graph blocks,
run the loop, and report `(total, valid, cross_duplicates, error_lines)`
where `cross_duplicates = sum(1 for v in duplicates.values() if v > 1)`. -/
def analyzeFile (decode : List Char → Except Unit (List AmrTriple))
    (content : List Char) : Nat × Nat × Nat × List Nat :=
  let sents := splitOnNlNl content
  let r := analyzeGo decode [] 0 sents
  (sents.length, r.1, (r.2.1.filter (fun p => decide (1 < p.2))).length, r.2.2)

/-! ## reentrancies.py load (lines 34-63) -/

/-- One step of `re.sub(' +', ' ', s)`: a run of spaces collapses to one
space.  `fuel` bounds the recursion; the input length always suffices. -/
def collapseSpacesGo : Nat → List Char → List Char
  | 0, s => s
  | _ + 1, [] => []
  | fuel + 1, c :: cs =>
    if c = ' ' then ' ' :: collapseSpacesGo fuel (cs.dropWhile (fun d => d = ' '))
    else c :: collapseSpacesGo fuel cs

/-- Python `re.sub(' +', ' ', s)`. -/
def collapseSpaces (s : List Char) : List Char := collapseSpacesGo s.length s

/-- `get_amr_string`: keep the lines that are not comments and are not the
first line (unless `no_tokens`), join with the empty string, strip, and
collapse space runs. -/
def get_amr_string (no_tokens : Bool) (sent : List Char) : List Char :=
  let kept := ((splitLines sent).enum.filter
    (fun p => !((pyStrip p.2).head? == some '#') && (decide (0 < p.1) || no_tokens))).map
    (fun p => p.2)
  collapseSpaces (pyStrip kept.flatten)

/-- `check_brackets_and_raise_exception_if_fail`'s condition: the string
starts with `'('` and ends with `')'`. -/
def check_brackets (a : List Char) : Bool :=
  a.head? == some '(' && a.getLast? == some ')'

/-- Exceptions escaping the per-sentence body of `reentrancies.load`. -/
inductive LoadErr
  | bracketsExc
  | decodeExc
deriving DecidableEq

/-- The per-sentence loop of `reentrancies.load`, with the two external
decode calls (`penman.decode` with the tree model inside
`get_reentrant_triples`, and plain `penman.decode` on the block) as
parameters; the external metadata parser is modelled as total.  There is no
handler in the loop: the bracket-check exception and any decode exception
propagate and abort the whole load.  Returns the number of loaded graphs. -/
def loadGo (decodeT decodeP : List Char → Except Unit Unit) (no_tokens : Bool) :
    List (List Char) → Except LoadErr Nat
  | [] => Except.ok 0
  | sent :: rest =>
    let a := get_amr_string no_tokens sent
    if a.isEmpty then loadGo decodeT decodeP no_tokens rest
    else if !check_brackets a then Except.error LoadErr.bracketsExc
    else
      match decodeT a with
      | Except.error _ => Except.error LoadErr.decodeExc
      | Except.ok _ =>
        match decodeP sent with
        | Except.error _ => Except.error LoadErr.decodeExc
        | Except.ok _ =>
          match loadGo decodeT decodeP no_tokens rest with
          | Except.error e => Except.error e
          | Except.ok n => Except.ok (n + 1)

/-- `reentrancies.load` on already-read file content: drop `'\r'`, split on
blank lines, compute `no_tokens`, and run the per-sentence loop. -/
def loadModel (decodeT decodeP : List Char → Except Unit Unit)
    (content : List Char) : Except LoadErr Nat :=
  let sents := splitOnNlNl (content.filter (fun c => c ≠ '\r'))
  let no_tokens := sents.all (fun s => (pyStrip s).head? == some '(')
  loadGo decodeT decodeP no_tokens sents

/-- Whether an external decode call returned a graph rather than raising. -/
def decodeOk (e : Except Unit (List AmrTriple)) : Bool :=
  match e with
  | Except.ok _ => true
  | Except.error _ => false

/-- A concrete decode capability for evaluating `analyzeFile`: it accepts
exactly the graph text `(a / b)` and returns its single triple. -/
def decodeAB : List Char → Except Unit (List AmrTriple) :=
  fun s =>
    if s = "(a / b)".toList then
      Except.ok [("a".toList, "instance".toList, "b".toList)]
    else Except.error ()

/-! ## Equation lemmas -/

theorem cnt_cons (c d : Char) (l : List Char) :
    cnt c (d :: l) = (if d = c then 1 else 0) + cnt c l := rfl

theorem scrubAux_open (cs : List Char) (st : Nat) :
    scrubAux ('(' :: cs) st = '(' :: scrubAux cs (st + 1) := by
  simp [scrubAux]

theorem scrubAux_close_succ (cs : List Char) (st : Nat) :
    scrubAux (')' :: cs) (st + 1) = ')' :: scrubAux cs st := by
  simp [scrubAux]

theorem scrubAux_other (c : Char) (cs : List Char) (st : Nat)
    (h1 : c ≠ '(') (h2 : c ≠ ')') :
    scrubAux (c :: cs) st = c :: scrubAux cs st := by
  simp [scrubAux, h1, h2]

theorem rmDupGo_cons_cb (seen : List (List Char)) (line : List Char)
    (rest : List (List Char)) (h : isCB line = true) :
    rmDupGo seen (line :: rest) =
      (line :: (rmDupGo seen rest).1, (rmDupGo seen rest).2) := by
  simp [rmDupGo, h]

theorem rmDupGo_cons_dup (seen : List (List Char)) (line : List Char)
    (rest : List (List Char)) (h : isCB line = false)
    (h2 : pyStrip line ∈ seen) :
    rmDupGo seen (line :: rest) =
      ((rmDupGo seen rest).1, (rmDupGo seen rest).2 + 1) := by
  simp [rmDupGo, h, h2]

theorem rmDupGo_cons_new (seen : List (List Char)) (line : List Char)
    (rest : List (List Char)) (h : isCB line = false)
    (h2 : pyStrip line ∉ seen) :
    rmDupGo seen (line :: rest) =
      (line :: (rmDupGo (pyStrip line :: seen) rest).1,
        (rmDupGo (pyStrip line :: seen) rest).2) := by
  simp [rmDupGo, h, h2]

/-! ## Fixed points of the scrub pass -/

theorem scrubAux_fixed (t : List Char) (st : Nat)
    (hpre : ∀ n, cnt ')' (t.take n) ≤ cnt '(' (t.take n) + st)
    (htot : cnt ')' t = cnt '(' t + st) : scrubAux t st = t := by
  induction t generalizing st with
  | nil =>
    simp only [cnt] at htot
    have h0 : st = 0 := by omega
    subst h0
    simp [scrubAux]
  | cons c t' ih =>
    by_cases hpo : c = '('
    · subst hpo
      rw [scrubAux_open]
      congr 1
      have hne : ¬ (('(' : Char) = ')') := by decide
      apply ih
      · intro n
        have h := hpre (n + 1)
        rw [List.take_succ_cons, cnt_cons, cnt_cons] at h
        simp [if_neg hne] at h
        omega
      · rw [cnt_cons, cnt_cons] at htot
        simp [if_neg hne] at htot
        omega
    · by_cases hpc : c = ')'
      · subst hpc
        have hne : ¬ ((')' : Char) = '(') := by decide
        have h1 := hpre 1
        rw [List.take_succ_cons, List.take_zero, cnt_cons, cnt_cons] at h1
        simp [if_neg hne, cnt] at h1
        cases st with
        | zero => omega
        | succ st'' =>
          rw [scrubAux_close_succ]
          congr 1
          apply ih
          · intro n
            have h := hpre (n + 1)
            rw [List.take_succ_cons, cnt_cons, cnt_cons] at h
            simp [if_neg hne] at h
            omega
          · rw [cnt_cons, cnt_cons] at htot
            simp [if_neg hne] at htot
            omega
      · rw [scrubAux_other c t' st hpo hpc]
        congr 1
        apply ih
        · intro n
          have h := hpre (n + 1)
          rw [List.take_succ_cons, cnt_cons, cnt_cons] at h
          simp only [if_neg hpo, if_neg hpc] at h
          omega
        · rw [cnt_cons, cnt_cons] at htot
          simp only [if_neg hpo, if_neg hpc] at htot
          omega

/-! ## Duplicate-eliminator lemmas -/

theorem rmDupGo_sublist (lines : List (List Char)) (seen : List (List Char)) :
    (rmDupGo seen lines).1.Sublist lines := by
  induction lines generalizing seen with
  | nil => simp [rmDupGo]
  | cons line rest ih =>
    cases hcb : isCB line with
    | true =>
      rw [rmDupGo_cons_cb seen line rest hcb]
      exact (ih seen).cons₂ line
    | false =>
      by_cases hmem : pyStrip line ∈ seen
      · rw [rmDupGo_cons_dup seen line rest hcb hmem]
        exact (ih seen).cons line
      · rw [rmDupGo_cons_new seen line rest hcb hmem]
        exact (ih (pyStrip line :: seen)).cons₂ line

theorem rmDupGo_len (lines : List (List Char)) (seen : List (List Char)) :
    (rmDupGo seen lines).2 + (rmDupGo seen lines).1.length = lines.length := by
  induction lines generalizing seen with
  | nil => simp [rmDupGo]
  | cons line rest ih =>
    cases hcb : isCB line with
    | true =>
      rw [rmDupGo_cons_cb seen line rest hcb]
      have := ih seen
      simp only [List.length_cons]
      omega
    | false =>
      by_cases hmem : pyStrip line ∈ seen
      · rw [rmDupGo_cons_dup seen line rest hcb hmem]
        have := ih seen
        simp only [List.length_cons]
        omega
      · rw [rmDupGo_cons_new seen line rest hcb hmem]
        have := ih (pyStrip line :: seen)
        simp only [List.length_cons]
        omega

theorem rmDupGo_comments (lines : List (List Char)) (seen : List (List Char)) :
    (rmDupGo seen lines).1.filter isCB = lines.filter isCB := by
  induction lines generalizing seen with
  | nil => simp [rmDupGo]
  | cons line rest ih =>
    cases hcb : isCB line with
    | true =>
      rw [rmDupGo_cons_cb seen line rest hcb]
      simp [List.filter_cons, hcb, ih seen]
    | false =>
      by_cases hmem : pyStrip line ∈ seen
      · rw [rmDupGo_cons_dup seen line rest hcb hmem]
        simp [List.filter_cons, hcb, ih seen]
      · rw [rmDupGo_cons_new seen line rest hcb hmem]
        simp [List.filter_cons, hcb, ih (pyStrip line :: seen)]

theorem rmDupGo_nodup (lines : List (List Char)) (seen : List (List Char)) :
    (((rmDupGo seen lines).1.filter (fun l => !isCB l)).map pyStrip).Nodup
    ∧ ∀ x ∈ ((rmDupGo seen lines).1.filter (fun l => !isCB l)).map pyStrip,
        x ∉ seen := by
  induction lines generalizing seen with
  | nil => simp [rmDupGo]
  | cons line rest ih =>
    cases hcb : isCB line with
    | true =>
      rw [rmDupGo_cons_cb seen line rest hcb]
      simpa [List.filter_cons, hcb] using ih seen
    | false =>
      by_cases hmem : pyStrip line ∈ seen
      · rw [rmDupGo_cons_dup seen line rest hcb hmem]
        exact ih seen
      · rw [rmDupGo_cons_new seen line rest hcb hmem]
        obtain ⟨ihn, ihm⟩ := ih (pyStrip line :: seen)
        simp only [List.filter_cons, hcb, Bool.not_false, if_pos rfl,
          List.map_cons]
        constructor
        · refine List.nodup_cons.2 ⟨?_, ihn⟩
          intro hmemmap
          exact (ihm _ hmemmap) (List.mem_cons_self _ _)
        · intro x hx
          rcases List.mem_cons.1 hx with hx | hx
          · subst hx; exact hmem
          · intro hxs
            exact (ihm _ hx) (List.mem_cons_of_mem _ hxs)

/-! ## Claim theorems -/

/-- Claim C1: for every input string, the Bracket Balancer's output (targeted
closer insertion followed by the stack scrub pass, as at the end of
`clean_amr`) is exactly bracket-balanced: the running depth over `'('` and
`')'` never goes negative on any prefix, and the total counts of `'('` and
`')'` in the output are equal. -/
theorem claim1_balancer_balanced (s : List Char) :
    (∀ n, cnt ')' ((bracketBalance s).take n) ≤ cnt '(' ((bracketBalance s).take n))
    ∧ cnt ')' (bracketBalance s) = cnt '(' (bracketBalance s) := by
  constructor
  · intro n
    simpa using scrubAux_take (closerIns s) 0 n
  · simpa using scrubAux_cnt (closerIns s) 0

/-- Claim C2: `validate_amr` (with the external decode as a parameter) is a
total function; it returns `is_valid = true` exactly when the decode succeeds
on the input or, after a `DecodeError`, on the count-repaired input — in
which case the returned text is the input or the count-repaired input — and
whenever it returns `is_valid = false` the returned text is exactly the
sentinel. -/
theorem claim2_validate_total (decode : List Char → Except DecErr Unit)
    (s : List Char) :
    ((validate_amr decode s).1 = true ↔
      decode s = Except.ok () ∨
        (decode s = Except.error DecErr.decodeError ∧
          decode (countFix s) = Except.ok ()))
    ∧ ((validate_amr decode s).1 = false → (validate_amr decode s).2 = sentinel)
    ∧ ((validate_amr decode s).1 = true →
        (validate_amr decode s).2 = s ∨ (validate_amr decode s).2 = countFix s) := by
  rcases h : decode s with e | a
  · cases e with
    | decodeError =>
      rcases h2 : decode (countFix s) with e2 | b
      · simp [validate_amr, h, h2]
      · cases b
        simp [validate_amr, h, h2]
    | otherError => simp [validate_amr, h]
  · cases a
    simp [validate_amr, h]

/-- Witness for claim C2 at a decode that always reports a `DecodeError` and
the empty input: every ladder step fails, so the result is invalid with the
sentinel text. -/
theorem claim2_validate_total_witness :
    (validate_amr (fun _ => Except.error DecErr.decodeError) []).1 = false
    ∧ (validate_amr (fun _ => Except.error DecErr.decodeError) []).2 = sentinel :=
  ⟨rfl, (claim2_validate_total (fun _ => Except.error DecErr.decodeError) []).2.1 rfl⟩

/-- Claim C3: `remove_duplicate_triples` returns the `rmDupGo` filtering of
the input lines rejoined with newlines; the surviving lines are a subsequence
of the input lines in order, comment and blank lines pass through unchanged,
no two surviving non-comment non-blank lines are equal after stripping, and
the removed count (a `Nat`, hence non-negative) plus the surviving line count
equals the input line count. -/
theorem claim3_dedup_props (s : List Char) :
    remove_duplicate_triples s =
      (joinNl (rmDupGo [] (splitLines s)).1, (rmDupGo [] (splitLines s)).2)
    ∧ (rmDupGo [] (splitLines s)).1.Sublist (splitLines s)
    ∧ (rmDupGo [] (splitLines s)).1.filter isCB = (splitLines s).filter isCB
    ∧ (((rmDupGo [] (splitLines s)).1.filter (fun l => !isCB l)).map pyStrip).Nodup
    ∧ (rmDupGo [] (splitLines s)).2 + (rmDupGo [] (splitLines s)).1.length
        = (splitLines s).length :=
  ⟨rfl, rmDupGo_sublist _ _, rmDupGo_comments _ _, (rmDupGo_nodup _ _).1,
    rmDupGo_len _ _⟩

theorem validateTuple_truthy (decode : List Char → Except DecErr Unit)
    (t : List Char) : pyTupleTruthy (validateTuple decode t) = true := rfl

/-- Claim C4: in `process_csv`'s per-column loop, the tuple returned by
`validate_amr` is bound to `is_valid` and used directly as a boolean, and a
nonempty tuple is always truthy; hence every row counts as valid, the invalid
count is zero (the `# INVALID AMR` branch is unreachable), and the written
text is always the deduplicated cleaned text, never the repaired text or the
sentinel. -/
theorem claim4_all_rows_valid (decode : List Char → Except DecErr Unit)
    (rows : List (List Char)) :
    (processCol decode rows).1 = rows.length
    ∧ (processCol decode rows).2.1 = 0
    ∧ (processCol decode rows).2.2 =
        rows.map (fun a => (remove_duplicate_triples (clean_amr a)).1)
    ∧ ∀ t, pyTupleTruthy (validateTuple decode t) = true := by
  induction rows with
  | nil => exact ⟨rfl, rfl, rfl, fun _ => rfl⟩
  | cons amr rest ih =>
    obtain ⟨h1, h2, h3, _⟩ := ih
    refine ⟨?_, ?_, ?_, fun _ => rfl⟩
    · simp [processCol, validateTuple_truthy, h1]
    · simp [processCol, validateTuple_truthy, h2]
    · simp [processCol, validateTuple_truthy, h3]

/-- Claim C5 counterexample: in `reentrancies.load` there is no per-item
handler, so the bracket-check exception raised for the second block of the
file below aborts the whole load (even though the external decodes always
succeed), while the same first block alone loads fine.  The item is not
marked invalid and processing does not continue. -/
theorem claim5_load_fatal_cex :
    loadModel (fun _ => Except.ok ()) (fun _ => Except.ok ())
      ("tokens\n(a / b)\n\ntokens2\nx".toList) = Except.error LoadErr.bracketsExc
    ∧ loadModel (fun _ => Except.ok ()) (fun _ => Except.ok ())
      ("tokens\n(a / b)".toList) = Except.ok 1 :=
  ⟨rfl, rfl⟩

/-- Claim C5 amended: only `analyze_amr_file`'s batch loop catches per-item
exceptions: for every decode capability it totals a valid count equal to the
number of non-blank items that decode, and records exactly the non-blank
items whose decode raises in `error_lines`, continuing past each of them. -/
theorem claim5_analyze_continues (decode : List Char → Except Unit (List AmrTriple))
    (dups : DupMap) (idx : Nat) (sents : List (List Char)) :
    (analyzeGo decode dups idx sents).1 =
      (sents.filter
        (fun s => !(pyStrip s).isEmpty && decodeOk (decode (pyStrip s)))).length
    ∧ (analyzeGo decode dups idx sents).2.2.length =
      (sents.filter
        (fun s => !(pyStrip s).isEmpty && !decodeOk (decode (pyStrip s)))).length := by
  induction sents generalizing dups idx with
  | nil => simp [analyzeGo]
  | cons s rest ih =>
    by_cases hb : (pyStrip s).isEmpty
    · have := ih dups (idx + 1)
      simp [analyzeGo, hb, List.filter_cons, this.1, this.2]
    · rcases hd : decode (pyStrip s) with e | g
      · have := ih dups (idx + 1)
        simp [analyzeGo, hb, hd, List.filter_cons, decodeOk, this.1, this.2]
      · have := ih (updGo dups [] g) (idx + 1)
        simp [analyzeGo, hb, hd, List.filter_cons, decodeOk, this.1, this.2]

/-- Claim C6 evaluation: on a file of two graph blocks that each decode to
the same single triple (the triple occurs once in each of the two graphs),
`analyzeFile` reports `cross_duplicates = 0`: the duplicates map only counts
repeats within a single graph, so a key occurring once in each of two
different graphs contributes nothing. -/
theorem claim6_cross_dup_eval :
    analyzeFile decodeAB ("(a / b)\n\n(a / b)".toList) = (2, 2, 0, []) := rfl

/-- Claim C7 counterexample: in the label segment of `(a / b  c)` the run of
two spaces becomes two underscores (`.replace(" ", "_")` replaces each space
separately), not the single joining character the claim states. -/
theorem claim7_double_space_cex :
    normalizeLine ("(a / b  c)".toList) = "(a /b__c)".toList
    ∧ normalizeLine ("(a / b  c)".toList) ≠ "(a /b_c)".toList :=
  ⟨rfl, by decide⟩

theorem takeWhile_append_slash (pre label : List Char) (h : '/' ∉ pre) :
    (pre ++ '/' :: label).takeWhile (fun c => c ≠ '/') = pre := by
  induction pre with
  | nil => simp
  | cons p pr ih =>
    have hp : p ≠ '/' := fun hh => h (hh ▸ List.mem_cons_self p pr)
    have hpr : '/' ∉ pr := fun hh => h (List.mem_cons_of_mem _ hh)
    simp [List.takeWhile_cons, hp]
    simpa using ih hpr

/-- Claim C7 amended: for a node-opening line `pre ++ "/" ++ label` (prefix
starting with `(` and containing no `/`), the multi-word fix keeps the
pre-`/` prefix verbatim and rewrites the label segment to its stripped form
with every individual space replaced by an underscore — so a run of k spaces
becomes k underscores, not one. -/
theorem claim7_label_spaces (pre label : List Char)
    (h1 : pre.head? = some '(') (h2 : '/' ∉ pre) :
    fixMultiWord (pre ++ '/' :: label) =
      pre ++ '/' :: ((pyStrip label).map (fun c => if c = ' ' then '_' else c)) := by
  have hhead : (pre ++ '/' :: label).head? = some '(' := by
    cases pre with
    | nil => simp at h1
    | cons p pr => simpa using h1
  have hmem : '/' ∈ pre ++ '/' :: label :=
    List.mem_append_right _ (List.mem_cons_self _ _)
  have e1 : (pre ++ '/' :: label).takeWhile (fun c => c ≠ '/') = pre :=
    takeWhile_append_slash pre label h2
  have e2 : (pre ++ '/' :: label).drop pre.length = '/' :: label :=
    List.drop_left pre ('/' :: label)
  unfold fixMultiWord
  rw [if_pos ⟨hhead, hmem⟩]
  simp only [e1, e2, List.tail_cons]

/-- Witness for the amended claim C7 at the concrete line `(a / b  c)`
(prefix `"(a "`, label `" b  c)"`). -/
theorem claim7_label_spaces_witness :
    ("(a ".toList.head? = some '(')
    ∧ ('/' ∉ "(a ".toList)
    ∧ fixMultiWord ("(a ".toList ++ '/' :: " b  c)".toList) =
        "(a ".toList ++ '/' ::
          ((pyStrip (" b  c)".toList)).map (fun c => if c = ' ' then '_' else c)) :=
  ⟨by decide, by decide, claim7_label_spaces _ _ (by decide) (by decide)⟩

/-- Claim C8 counterexample: on `(g / gggg) :ARG0 x` the Lexical Normalizer
produces `(g /gggg)_:ARG0_ x`, which does not contain `":ARG0 "`: no space is
inserted immediately after the role token `:ARG0`. -/
theorem claim8_role_space_cex :
    normalizeLine ("(g / gggg) :ARG0 x".toList) = "(g /gggg)_:ARG0_ x".toList
    ∧ hasSub (":ARG0 ".toList) (normalizeLine ("(g / gggg) :ARG0 x".toList)) = false :=
  ⟨rfl, rfl⟩

/-- Claim C8 amended: on the scenario input the multi-word fix first turns
the label spaces into underscores, extending the role token to `:ARG0_`, and
the role regex — whose lookahead fails at a following space, `/` or the end,
making the engine backtrack one character — inserts the space before the
token's last character, giving `(g /gggg)_:ARG0_ x`; on the raw token
`:ARG0 x` the same backtracking yields `:ARG 0 x`, and a space lands directly
after a full role token exactly in the glued case, as in `:ARG0(x`. -/
theorem claim8_role_space_actual :
    normalizeLine ("(g / gggg) :ARG0 x".toList) = "(g /gggg)_:ARG0_ x".toList
    ∧ roleSub (":ARG0 x".toList) = ":ARG 0 x".toList
    ∧ roleSub (":ARG0(x".toList) = ":ARG0 (x".toList :=
  ⟨rfl, rfl, rfl⟩

/-- Claim C9 counterexample: on `(a / b\nc` the `[^)]+` of the targeted
closer-insertion regex spans the newline, so the inserted `)` lands at the
end of the second line, not immediately before the node-definition line's
trailing newline as the claim states. -/
theorem claim9_closer_line_cex :
    closerIns ("(a / b\nc".toList) = "(a / b\nc)".toList
    ∧ closerIns ("(a / b\nc".toList) ≠ "(a / b)\nc".toList :=
  ⟨rfl, by decide⟩

/-- Claim C9 amended: the pass inserts one `)` at the last newline (or at the
end of text) reachable from the node-open prefix through non-`)` characters:
on a single-line unclosed node the `)` is appended at the end of that line;
when no `)` follows, the `)` can land on a later line; and a well-formed
multi-line node whose definition line lacks a `)` is modified. -/
theorem claim9_closer_actual :
    closerIns ("(a / b".toList) = "(a / b)".toList
    ∧ closerIns ("(a / b\nc".toList) = "(a / b\nc)".toList
    ∧ closerIns ("(a / b\n:ARG0 (c / d))".toList) = "(a / b)\n:ARG0 (c / d))".toList :=
  ⟨rfl, rfl, rfl⟩

/-- Claim C10 counterexample: the Bracket Balancer is not idempotent: on
`(a / b\nc d` one application gives `(a / b\nc d)` but a second application
gives `(a / b)\nc d`, because the closer-insertion regex re-matches on the
balanced output. -/
theorem claim10_balancer_not_idem_cex :
    bracketBalance (bracketBalance ("(a / b\nc d".toList)) ≠
      bracketBalance ("(a / b\nc d".toList) := by decide

/-- Claim C10 amended: the stack scrub pass alone is idempotent — its output
is balanced, and the scrub fixes every balanced text — while the full
balancer is not, as the counterexample shows. -/
theorem claim10_scrub_idem (s : List Char) : scrub (scrub s) = scrub s := by
  unfold scrub
  apply scrubAux_fixed
  · intro n
    simpa using scrubAux_take s 0 n
  · simpa using scrubAux_cnt s 0
